import Mathlib

/-!
Verification of the fuzzy-match answering engine of the Auto Answer API
(`src/main.py`): text normalization (`unidecode(text.lower())`), the
rapidfuzz similarity scorer (`fuzz.ratio`, the Indel-distance based ratio),
best-match selection (`process.extractOne`), the in-memory cache
(`load_cache`) and the endpoint handlers `answer_question`, `add_answer`
and `import_csv`.

Strings are modelled as `List Char` (Python `len` counts code points, as
does `List.length`).  Similarity scores are modelled as exact rationals;
rapidfuzz computes them as doubles, the difference only matters at
representation-rounding margins that no claim depends on.
-/

namespace AutoFAQ

/-! ### Text normalizer: `unidecode(text.lower())` -/

/-- Python `str.lower` on a single character, modelled for ASCII
(`A`–`Z`) and the Latin-1 uppercase letters `À`–`Þ` (excluding the
multiplication sign `×`); all other characters are left unchanged. -/
def pyLowerChar (c : Char) : Char :=
  if 65 ≤ c.toNat ∧ c.toNat ≤ 90 then Char.ofNat (c.toNat + 32)
  else if 192 ≤ c.toNat ∧ c.toNat ≤ 222 ∧ c.toNat ≠ 215 then Char.ofNat (c.toNat + 32)
  else c

/-- Python `str.lower`, character by character. -/
def pyLower (s : List Char) : List Char := s.map pyLowerChar

/-- The `unidecode` transliteration of one character: ASCII code points
pass through unchanged; accented Latin letters and a few symbols map to
their ASCII transliterations; the two CJK characters of the library's
own README example (`unidecode("北亰") = "Bei Jing "`) are included;
other unmapped characters transliterate to the empty string. -/
def unidecodeChar (c : Char) : List Char :=
  if c.toNat < 128 then [c]
  else match c with
  | 'À' | 'Á' | 'Â' | 'Ã' | 'Ä' | 'Å' => ['A']
  | 'Æ' => ['A', 'E']
  | 'Ç' => ['C']
  | 'È' | 'É' | 'Ê' | 'Ë' => ['E']
  | 'Ì' | 'Í' | 'Î' | 'Ï' => ['I']
  | 'Ð' => ['D']
  | 'Ñ' => ['N']
  | 'Ò' | 'Ó' | 'Ô' | 'Õ' | 'Ö' => ['O']
  | '×' => ['x']
  | 'Ø' => ['O']
  | 'Ù' | 'Ú' | 'Û' | 'Ü' => ['U']
  | 'Ý' => ['Y']
  | 'Þ' => ['T', 'h']
  | 'ß' => ['s', 's']
  | 'à' | 'á' | 'â' | 'ã' | 'ä' | 'å' => ['a']
  | 'æ' => ['a', 'e']
  | 'ç' => ['c']
  | 'è' | 'é' | 'ê' | 'ë' => ['e']
  | 'ì' | 'í' | 'î' | 'ï' => ['i']
  | 'ð' => ['d']
  | 'ñ' => ['n']
  | 'ò' | 'ó' | 'ô' | 'õ' | 'ö' => ['o']
  | '÷' => ['/']
  | 'ø' => ['o']
  | 'ù' | 'ú' | 'û' | 'ü' => ['u']
  | 'ý' | 'ÿ' => ['y']
  | 'þ' => ['t', 'h']
  | '北' => ['B', 'e', 'i', ' ']
  | '亰' => ['J', 'i', 'n', 'g', ' ']
  | _ => []

/-- The `unidecode` transliteration of a string. -/
def unidecode (s : List Char) : List Char := (s.map unidecodeChar).flatten

/-- The normalization applied at write time (`add_answer`, `import_csv`)
and at query time (`answer_question`): `unidecode(text.lower())`. -/
def normalize (s : List Char) : List Char := unidecode (pyLower s)

/-! ### The similarity scorer: rapidfuzz `fuzz.ratio` -/

/-- The Indel distance (edit distance with insertions and deletions
only), the distance underlying rapidfuzz's `fuzz.ratio`. -/
def indel : List Char → List Char → Nat
  | [], ys => ys.length
  | xs, [] => xs.length
  | x :: xs, y :: ys =>
    if x = y then indel xs ys
    else 1 + min (indel xs (y :: ys)) (indel (x :: xs) ys)
termination_by a b => a.length + b.length

/-- Dynamic-programming row for the empty first string: the distances of
`[]` against every suffix of `b`. -/
def row0 (b : List Char) : List Nat :=
  (List.range (b.length + 1)).map (fun j => b.length - j)

/-- One dynamic-programming step: from the row of distances of `s`
against the suffixes of `b`, compute the row for `x :: s`. -/
def nextRow (x : Char) : List Char → List Nat → List Nat
  | [], prev => [prev.headD 0 + 1]
  | y :: ys, prev =>
    let rest := nextRow x ys prev.tail
    (if x = y then prev.tail.headD 0
     else 1 + min (prev.headD 0) (rest.headD 0)) :: rest

/-- All Indel distances of `a` against the suffixes of `b`, computed by
dynamic programming (structurally recursive, hence executable in the
kernel). -/
def indelRows (a b : List Char) : List Nat :=
  a.foldr (fun x r => nextRow x b r) (row0 b)

/-- Executable Indel distance; proved equal to `indel` below. -/
def indelFast (a b : List Char) : Nat := (indelRows a b).headD 0

/-- rapidfuzz `fuzz.ratio`: `100 * (1 - dist / (len1 + len2))`, with the
convention that two empty strings score `100`. -/
def ratioScore (a b : List Char) : ℚ :=
  if a.length + b.length = 0 then 100
  else 100 * (1 - (indelFast a b : ℚ) / (a.length + b.length))

/-! ### Best-match selection: rapidfuzz `process.extractOne` -/

/-- The scanning loop of `process.extractOne`: keep the current best
`(choice, score, index)`, replacing it only on a strictly larger score,
so the first of several maximal candidates wins. -/
def extractOneAux (q : List Char) :
    List (List Char) → Nat → List Char × ℚ × Nat → List Char × ℚ × Nat
  | [], _, best => best
  | c :: cs, i, (bc, bs, bi) =>
    if ratioScore q c > bs then extractOneAux q cs (i + 1) (c, ratioScore q c, i)
    else extractOneAux q cs (i + 1) (bc, bs, bi)

/-- rapidfuzz `process.extractOne(query, choices, scorer=fuzz.ratio)`:
`none` on an empty choice list, otherwise the best `(choice, score,
index)` with first-occurrence tie-breaking. -/
def extractOne (q : List Char) : List (List Char) → Option (List Char × ℚ × Nat)
  | [] => none
  | c :: cs => some (extractOneAux q cs 1 (c, ratioScore q c, 0))

/-! ### Data model: store records and the in-memory cache -/

/-- One row of the `answers` table: `(question, answer, question_norm,
category)`. -/
structure AnswerRecord where
  question : List Char
  answer : List Char
  question_norm : List Char
  category : Option (List Char)
deriving DecidableEq, Repr

/-- The in-memory `CACHE` dictionary: `data` holds the raw
`(question, answer)` pairs, `norm_questions` the normalized questions. -/
structure Cache where
  data : List (List Char × List Char)
  norm_questions : List (List Char)
deriving DecidableEq, Repr

/-- `load_cache`: rebuild the whole cache as a projection of the store's
current contents, in store iteration order. -/
def load_cache (store : List AnswerRecord) : Cache :=
  { data := store.map (fun r => (r.question, r.answer))
    norm_questions := store.map (fun r => r.question_norm) }

/-- The whole mutable server state: the `answers` table plus the cache. -/
structure ServerState where
  store : List AnswerRecord
  cache : Cache
deriving DecidableEq, Repr

/-- Server state at startup: `load_cache()` is called once on the
initial store contents. -/
def initState (store : List AnswerRecord) : ServerState :=
  { store := store, cache := load_cache store }

/-! ### The answering endpoint -/

/-- The body of `{"error": "empty database"}`. -/
def emptyDbMsg : List Char := "empty database".toList

/-- The body of `{"error": "I don't know"}`. -/
def unknownMsg : List Char := "I don't know".toList

/-- The JSON bodies `answer_question` can return: an error object or an
answer object with a formatted confidence. -/
inductive AnswerResponse where
  | error (msg : List Char)
  | ok (answer : List Char) (confidence : List Char)
deriving DecidableEq, Repr

/-- Round-half-to-even of a rational, as Python's `format` applies to
the scaled score. -/
def roundHalfEven (q : ℚ) : ℤ :=
  let f := ⌊q⌋
  if q - f < 1 / 2 then f
  else if 1 / 2 < q - f then f + 1
  else if 2 ∣ f then f else f + 1

/-- Decimal digit character. -/
def digitChar (n : Nat) : Char := Char.ofNat (48 + n)

/-- Decimal representation of a natural number below 10000 (scores only
ever need up to `100`). -/
def natChars (n : Nat) : List Char :=
  if n < 10 then [digitChar n]
  else if n < 100 then [digitChar (n / 10), digitChar (n % 10)]
  else if n < 1000 then [digitChar (n / 100), digitChar (n / 10 % 10), digitChar (n % 10)]
  else [digitChar (n / 1000), digitChar (n / 100 % 10), digitChar (n / 10 % 10),
        digitChar (n % 10)]

/-- The confidence string `f"{score:.1f}%"`: one decimal place, percent
sign appended. -/
def formatConfidence (s : ℚ) : List Char :=
  let m : Nat := (roundHalfEven (10 * s)).toNat
  natChars (m / 10) ++ ['.', digitChar (m % 10), '%']

/-- The matching part of `answer_question`, applied to the already
normalized input.  `none` models a raised exception (unpacking `None`
from `extractOne`, or an out-of-range index), which no reachable state
produces. -/
def answerCore (cache : Cache) (input_norm : List Char) : Option AnswerResponse :=
  match extractOne input_norm cache.norm_questions with
  | none => none
  | some (_, score, idx) =>
    if 70 ≤ score then
      match cache.data[idx]? with
      | none => none
      | some pr => some (AnswerResponse.ok pr.2 (formatConfidence score))
    else some (AnswerResponse.error unknownMsg)

/-- The `/answer` handler after auth and rate limiting: empty-cache
check, normalization, fuzzy matching, threshold 70. -/
def answer_question (cache : Cache) (question : List Char) : Option AnswerResponse :=
  if cache.data = [] then some (AnswerResponse.error emptyDbMsg)
  else answerCore cache (normalize question)

/-! ### The mutation endpoints -/

/-- The `/add` request body. -/
structure NewAnswer where
  question : List Char
  answer : List Char
  category : Option (List Char)
deriving DecidableEq, Repr

/-- The record `/add` inserts: `question_norm` is the normalizer applied
to the question at creation time. -/
def mkRecord (item : NewAnswer) : AnswerRecord :=
  { question := item.question
    answer := item.answer
    question_norm := normalize item.question
    category := item.category }

/-- The `/add` handler after auth: insert the record, then rebuild the
cache before reporting success. -/
def add_answer (st : ServerState) (item : NewAnswer) : ServerState :=
  let store := st.store ++ [mkRecord item]
  { store := store, cache := load_cache store }

/-- Python whitespace characters stripped by `str.strip()`. -/
def isPySpace (c : Char) : Bool :=
  c = ' ' || c = '\t' || c = '\n' || c = '\x0d' || c = '\x0b' || c = '\x0c'

/-- Python `str.strip()`: drop whitespace from both ends. -/
def pyStrip (s : List Char) : List Char :=
  ((s.dropWhile isPySpace).reverse.dropWhile isPySpace).reverse

/-- Field validation of one CSV row (step 4 of `import_csv`): the first
failing check's HTTP 400 detail, or `none` if the row is valid. -/
def rowError (row : List (List Char)) : Option (List Char) :=
  if row.length < 2 then
    some "Each row must contain at least question and answer.".toList
  else
    let q := pyStrip (row.headD [])
    let a := pyStrip ((row.drop 1).headD [])
    let c := if 3 ≤ row.length then some (pyStrip ((row.drop 2).headD [])) else none
    if 500 < q.length then some "Question too long. Max length is 500 characters.".toList
    else if 2000 < a.length then some "Answer too long. Max length is 2000 characters.".toList
    else match c with
      | some cc =>
        if cc ≠ [] ∧ 100 < cc.length then
          some "Category too long. Max length is 100 characters.".toList
        else none
      | none => none

/-- The record one CSV row inserts (step 5 of `import_csv`): fields are
stripped, `question_norm` is the normalizer applied to the stripped
question. -/
def csvRecord (row : List (List Char)) : AnswerRecord :=
  { question := pyStrip (row.headD [])
    answer := pyStrip ((row.drop 1).headD [])
    question_norm := normalize (pyStrip (row.headD []))
    category := if 3 ≤ row.length then some (pyStrip ((row.drop 2).headD [])) else none }

/-- Outcome of `/import_csv`: an `HTTPException` or a success count. -/
inductive ImportResult where
  | httpError (status : Nat) (detail : List Char)
  | ok (added : Nat)
deriving DecidableEq, Repr

/-- The `/import_csv` handler from the parsed row list on (file size and
encoding checks concern the raw upload and precede this): row-count
limit, then validation of every row, then — only if all rows passed —
the inserts and one cache rebuild. -/
def import_csv (st : ServerState) (rows : List (List (List Char))) :
    ServerState × ImportResult :=
  if 500 < rows.length then
    (st, ImportResult.httpError 400 "CSV contains too many rows. Max allowed is 500.".toList)
  else match rows.findSome? rowError with
    | some msg => (st, ImportResult.httpError 400 msg)
    | none =>
      let store := st.store ++ rows.map csvRecord
      ({ store := store, cache := load_cache store }, ImportResult.ok rows.length)

/-- The states the server can be in: startup (`load_cache` on the
initial store), then any interleaving of `/add` and `/import_csv`
(reads do not change state). -/
inductive Reachable : ServerState → Prop
  | init (store : List AnswerRecord) : Reachable (initState store)
  | add (st : ServerState) (item : NewAnswer) :
      Reachable st → Reachable (add_answer st item)
  | csv (st : ServerState) (rows : List (List (List Char))) :
      Reachable st → Reachable (import_csv st rows).1

/-! ### Auxiliary data for concrete instantiations -/

/-- The characters on which the normalizer model is complete: the ASCII
block and the Latin-1 letter block `À`–`ÿ`. -/
def latinChars : List Char :=
  (List.range 128).map Char.ofNat ++ (List.range 64).map (fun n => Char.ofNat (192 + n))

/-- Two-record store for the worked example of the spec: the candidates
`"ola tudo bem"` and `"qual o horario"`. -/
def demoStore : List AnswerRecord :=
  [ { question := "ola tudo bem".toList
      answer := "Oi! Tudo otimo.".toList
      question_norm := "ola tudo bem".toList
      category := none }
  , { question := "qual o horario".toList
      answer := "Das 8h as 18h.".toList
      question_norm := "qual o horario".toList
      category := none } ]

/-- The cache built from `demoStore`. -/
def demoCache : Cache := load_cache demoStore

/-- A one-record cache used to instantiate hypothesis-bearing theorems. -/
def witnessCache : Cache :=
  { data := [("oi".toList, "ola".toList)], norm_questions := ["oi".toList] }

/-- An empty cache (no records loaded). -/
def emptyCache : Cache := { data := [], norm_questions := [] }

/-- A `/add` request body used to instantiate hypothesis-bearing
theorems. -/
def witnessItem : NewAnswer :=
  { question := "Bom dia".toList, answer := "Bom dia!".toList, category := none }

/-- A valid parsed CSV upload with a single `question,answer` row. -/
def witnessRows : List (List (List Char)) :=
  [["Qual o preco?".toList, "R$ 10".toList]]

/-- A parsed CSV upload whose single row has only one field. -/
def badRows : List (List (List Char)) :=
  [["so uma coluna".toList]]

/-! ### Basic facts about the Indel distance -/

lemma indel_nil_left (b : List Char) : indel [] b = b.length := by
  simp [indel]

lemma indel_nil_right (a : List Char) : indel a [] = a.length := by
  cases a <;> simp [indel]

lemma indel_cons_cons (x : Char) (xs : List Char) (y : Char) (ys : List Char) :
    indel (x :: xs) (y :: ys) =
      if x = y then indel xs ys
      else 1 + min (indel xs (y :: ys)) (indel (x :: xs) ys) := by
  simp [indel]

lemma indel_self (a : List Char) : indel a a = 0 := by
  induction a with
  | nil => simp [indel]
  | cons x xs ih => simp [indel_cons_cons, ih]

lemma indel_le (a : List Char) : ∀ b : List Char, indel a b ≤ a.length + b.length := by
  induction a with
  | nil => intro b; simp [indel_nil_left]
  | cons x xs ih =>
    intro b
    induction b with
    | nil => simp [indel_nil_right]
    | cons y ys ihb =>
      rw [indel_cons_cons]
      have h1 := ih (y :: ys)
      have h2 := ih ys
      split
      · simp only [List.length_cons]; omega
      · have hmin : min (indel xs (y :: ys)) (indel (x :: xs) ys) ≤ indel xs (y :: ys) :=
          Nat.min_le_left _ _
        simp only [List.length_cons] at *
        omega

/-! ### The dynamic-programming rows compute the Indel distance -/

lemma getElem?_tail_nat (l : List Nat) (j : Nat) : l.tail[j]? = l[j + 1]? := by
  cases l <;> simp

lemma headD_of_getElem? {l : List Nat} {v : Nat} (h : l[0]? = some v) :
    l.headD 0 = v := by
  cases l <;> simp_all

lemma nextRow_spec (x : Char) :
    ∀ (bs : List Char) (prev : List Nat) (s : List Char),
      (∀ j, j ≤ bs.length → prev[j]? = some (indel s (bs.drop j))) →
      ∀ j, j ≤ bs.length → (nextRow x bs prev)[j]? = some (indel (x :: s) (bs.drop j)) := by
  intro bs
  induction bs with
  | nil =>
    intro prev s hprev j hj
    have hj0 : j = 0 := by simpa using hj
    subst hj0
    have h0 : prev[0]? = some (indel s []) := by simpa using hprev 0 (by simp)
    have hd : prev.headD 0 = indel s [] := headD_of_getElem? h0
    simp only [nextRow, List.getElem?_cons_zero, List.drop_nil]
    rw [hd, indel_nil_right, indel_nil_right]
    simp
  | cons y ys ih =>
    intro prev s hprev j hj
    have htail : ∀ j, j ≤ ys.length → prev.tail[j]? = some (indel s (ys.drop j)) := by
      intro j hj
      rw [getElem?_tail_nat]
      simpa using hprev (j + 1) (by simpa using hj)
    have hrest := ih prev.tail s htail
    cases j with
    | zero =>
      have hdiag : prev.tail.headD 0 = indel s ys := by
        simpa using headD_of_getElem? (htail 0 (by simp))
      have hleft : prev.headD 0 = indel s (y :: ys) := by
        simpa using headD_of_getElem? (hprev 0 (by simp))
      have hup : (nextRow x ys prev.tail).headD 0 = indel (x :: s) ys := by
        simpa using headD_of_getElem? (hrest 0 (by simp))
      simp only [nextRow, List.getElem?_cons_zero, List.drop_zero]
      rw [hdiag, hleft, hup, indel_cons_cons]
    | succ j' =>
      have hj' : j' ≤ ys.length := by simpa using hj
      simp only [nextRow, List.getElem?_cons_succ, List.drop_succ_cons]
      exact hrest j' hj'

lemma indelRows_spec (a b : List Char) :
    ∀ j, j ≤ b.length → (indelRows a b)[j]? = some (indel a (b.drop j)) := by
  induction a with
  | nil =>
    intro j hj
    have : indelRows [] b = row0 b := rfl
    rw [this, row0, List.getElem?_map, List.getElem?_range (by omega)]
    simp [indel_nil_left]
  | cons x xs ih =>
    intro j hj
    have : indelRows (x :: xs) b = nextRow x b (indelRows xs b) := rfl
    rw [this]
    exact nextRow_spec x b (indelRows xs b) xs ih j hj

lemma indelFast_eq (a b : List Char) : indelFast a b = indel a b := by
  have h := indelRows_spec a b 0 (by omega)
  simp only [List.drop_zero] at h
  exact headD_of_getElem? h

/-! ### Bounds on the similarity score -/

lemma ratioScore_nonneg (a b : List Char) : 0 ≤ ratioScore a b := by
  unfold ratioScore
  split
  · norm_num
  · rename_i h
    have hL : (0 : ℚ) < (a.length : ℚ) + (b.length : ℚ) := by
      have : 0 < a.length + b.length := Nat.pos_of_ne_zero h
      exact_mod_cast this
    have hd : (indelFast a b : ℚ) ≤ (a.length : ℚ) + (b.length : ℚ) := by
      rw [indelFast_eq]
      exact_mod_cast indel_le a b
    have : (indelFast a b : ℚ) / ((a.length : ℚ) + (b.length : ℚ)) ≤ 1 :=
      (div_le_one hL).mpr hd
    nlinarith

lemma ratioScore_le_100 (a b : List Char) : ratioScore a b ≤ 100 := by
  unfold ratioScore
  split
  · norm_num
  · rename_i h
    have hL : (0 : ℚ) < (a.length : ℚ) + (b.length : ℚ) := by
      have : 0 < a.length + b.length := Nat.pos_of_ne_zero h
      exact_mod_cast this
    have hd : (0 : ℚ) ≤ (indelFast a b : ℚ) := by positivity
    have : (0 : ℚ) ≤ (indelFast a b : ℚ) / ((a.length : ℚ) + (b.length : ℚ)) :=
      div_nonneg hd hL.le
    nlinarith

lemma ratioScore_self (a : List Char) : ratioScore a a = 100 := by
  unfold ratioScore
  split
  · rfl
  · rename_i h
    have hL : (0 : ℚ) < (a.length : ℚ) + (a.length : ℚ) := by
      have : 0 < a.length + a.length := Nat.pos_of_ne_zero h
      exact_mod_cast this
    rw [indelFast_eq, indel_self]
    push_cast
    field_simp

/-! ### The scanning loop of `extractOne` -/

lemma extractOneAux_spec (q : List Char) :
    ∀ (cs done : List (List Char)) (bc : List Char) (bs : ℚ) (bi : Nat),
      done[bi]? = some bc →
      bs = ratioScore q bc →
      (∀ j (hj : j < done.length), ratioScore q done[j] ≤ bs) →
      (∀ j (hj : j < done.length), j < bi → ratioScore q done[j] < bs) →
      ∃ m s i,
        extractOneAux q cs done.length (bc, bs, bi) = (m, s, i) ∧
        (done ++ cs)[i]? = some m ∧
        s = ratioScore q m ∧
        (∀ j (hj : j < (done ++ cs).length), ratioScore q (done ++ cs)[j] ≤ s) ∧
        (∀ j (hj : j < (done ++ cs).length), j < i → ratioScore q (done ++ cs)[j] < s) := by
  intro cs
  induction cs with
  | nil =>
    intro done bc bs bi hloc hscore hmax hstrict
    exact ⟨bc, bs, bi, rfl, by simpa using hloc, hscore, by simpa using hmax,
      by simpa using hstrict⟩
  | cons c cs ih =>
    intro done bc bs bi hloc hscore hmax hstrict
    have hstep : extractOneAux q (c :: cs) done.length (bc, bs, bi) =
        if ratioScore q c > bs then
          extractOneAux q cs (done.length + 1) (c, ratioScore q c, done.length)
        else extractOneAux q cs (done.length + 1) (bc, bs, bi) := rfl
    have hlen1 : (done ++ [c]).length = done.length + 1 := by simp
    have happ : done ++ c :: cs = (done ++ [c]) ++ cs := by simp
    by_cases hgt : ratioScore q c > bs
    · -- the new candidate strictly improves the running best
      have hloc' : (done ++ [c])[done.length]? = some c := by
        rw [List.getElem?_append_right (le_refl _)]
        simp
      have hmax' : ∀ j (hj : j < (done ++ [c]).length),
          ratioScore q (done ++ [c])[j] ≤ ratioScore q c := by
        intro j hj
        rcases Nat.lt_or_ge j done.length with hlt | hge
        · rw [List.getElem_append_left hlt]
          exact le_of_lt (lt_of_le_of_lt (hmax j hlt) hgt)
        · have hj' : j = done.length := by
            have := hlen1 ▸ hj
            omega
          subst hj'
          rw [List.getElem_append_right (le_refl _)]
          simp
      have hstrict' : ∀ j (hj : j < (done ++ [c]).length),
          j < done.length → ratioScore q (done ++ [c])[j] < ratioScore q c := by
        intro j hj hlt
        rw [List.getElem_append_left hlt]
        exact lt_of_le_of_lt (hmax j hlt) hgt
      have := ih (done ++ [c]) c (ratioScore q c) done.length hloc' rfl hmax' hstrict'
      rw [hlen1] at this
      obtain ⟨m, s, i, heq, hl, hs, hm, hst⟩ := this
      refine ⟨m, s, i, ?_, ?_, hs, ?_, ?_⟩
      · rw [hstep, if_pos hgt]; exact heq
      · rw [happ]; exact hl
      · rw [happ]; exact hm
      · rw [happ]; exact hst
    · -- the running best is kept
      have hble : ratioScore q c ≤ bs := le_of_not_lt hgt
      have hbi : bi < done.length := by
        rcases List.getElem?_eq_some_iff.mp hloc with ⟨h, _⟩
        exact h
      have hloc' : (done ++ [c])[bi]? = some bc := by
        rw [List.getElem?_append_left hbi]
        exact hloc
      have hmax' : ∀ j (hj : j < (done ++ [c]).length),
          ratioScore q (done ++ [c])[j] ≤ bs := by
        intro j hj
        rcases Nat.lt_or_ge j done.length with hlt | hge
        · rw [List.getElem_append_left hlt]
          exact hmax j hlt
        · have hj' : j = done.length := by
            have := hlen1 ▸ hj
            omega
          subst hj'
          rw [List.getElem_append_right (le_refl _)]
          simpa using hble
      have hstrict' : ∀ j (hj : j < (done ++ [c]).length),
          j < bi → ratioScore q (done ++ [c])[j] < bs := by
        intro j hj hlt
        have hjd : j < done.length := lt_trans hlt hbi
        rw [List.getElem_append_left hjd]
        exact hstrict j hjd hlt
      have := ih (done ++ [c]) bc bs bi hloc' hscore hmax' hstrict'
      rw [hlen1] at this
      obtain ⟨m, s, i, heq, hl, hs, hm, hst⟩ := this
      refine ⟨m, s, i, ?_, ?_, hs, ?_, ?_⟩
      · rw [hstep, if_neg hgt]; exact heq
      · rw [happ]; exact hl
      · rw [happ]; exact hm
      · rw [happ]; exact hst

lemma extractOne_spec (q : List Char) (cands : List (List Char)) (h : cands ≠ []) :
    ∃ m s i,
      extractOne q cands = some (m, s, i) ∧
      i < cands.length ∧
      cands[i]? = some m ∧
      s = ratioScore q m ∧
      (∀ j (hj : j < cands.length), ratioScore q cands[j] ≤ s) ∧
      (∀ j (hj : j < cands.length), j < i → ratioScore q cands[j] < s) := by
  match cands, h with
  | c :: cs, _ =>
    have hinit := extractOneAux_spec q cs [c] c (ratioScore q c) 0 (by simp) rfl
      (by
        intro j hj
        have hj1 : j < 1 := by simpa using hj
        have hj0 : j = 0 := by omega
        subst hj0
        simp)
      (by intro j hj hlt; omega)
    simp only [List.length_cons, List.length_nil, List.singleton_append] at hinit
    obtain ⟨m, s, i, heq, hl, hs, hm, hst⟩ := hinit
    have hi : i < (c :: cs).length := by
      rcases List.getElem?_eq_some_iff.mp hl with ⟨hlt, _⟩
      exact hlt
    exact ⟨m, s, i, by simpa [extractOne] using heq, hi, hl, hs, hm, hst⟩

/-! ### The normalizer on its own output -/

lemma normalize_nil : normalize [] = [] := rfl

lemma normalize_cons (c : Char) (l : List Char) :
    normalize (c :: l) = unidecodeChar (pyLowerChar c) ++ normalize l := by
  simp [normalize, pyLower, unidecode]

set_option maxRecDepth 4000 in
lemma latin_ok :
    ∀ c ∈ latinChars, ∀ d ∈ unidecodeChar (pyLowerChar c),
      unidecodeChar (pyLowerChar d) = [d] := by decide

lemma normalize_fixed_of (l : List Char)
    (h : ∀ d ∈ l, unidecodeChar (pyLowerChar d) = [d]) : normalize l = l := by
  induction l with
  | nil => rfl
  | cons d rest ih =>
    rw [normalize_cons, h d (List.mem_cons_self d rest),
      ih (fun e he => h e (List.mem_cons_of_mem d he))]
    rfl

/-! ### Claim theorems -/

lemma normalize_append (a b : List Char) :
    normalize (a ++ b) = normalize a ++ normalize b := by
  simp [normalize, pyLower, unidecode]

/-- Claim C8 (counterexample): the normalizer is not idempotent on every
string: `unidecode` transliterates CJK characters to capitalized ASCII
(the library README's own example, `unidecode("北亰") = "Bei Jing "`),
which a second normalization pass lower-cases. -/
theorem normalize_not_idempotent_cjk :
    ¬ normalize (normalize "北亰".toList) = normalize "北亰".toList := by decide

/-- Claim C8 (amended): the normalizer is idempotent on every string
whose characters lie in the ASCII block or the Latin-1 letter block;
full-Unicode input can break idempotence because transliteration may
introduce upper-case ASCII. -/
theorem normalize_idempotent_on_latin (t : List Char)
    (h : ∀ c ∈ t, c ∈ latinChars) :
    normalize (normalize t) = normalize t := by
  induction t with
  | nil => rfl
  | cons c rest ih =>
    have hc : c ∈ latinChars := h c (List.mem_cons_self c rest)
    have hrest := ih (fun e he => h e (List.mem_cons_of_mem c he))
    rw [normalize_cons, normalize_append, hrest,
      normalize_fixed_of _ (latin_ok c hc)]

set_option maxRecDepth 4000 in
/-- Witness for C8 at the concrete string of the spec's worked example. -/
theorem normalize_idempotent_on_latin_witness :
    normalize (normalize "Olá, tudo bem?".toList) = normalize "Olá, tudo bem?".toList :=
  normalize_idempotent_on_latin "Olá, tudo bem?".toList (by decide)

/-- Claim C2: with no cached records, `answer_question` returns the
distinct `{"error": "empty database"}` body for every input, and that
body differs from the below-threshold `{"error": "I don't know"}` one. -/
theorem answer_empty_database (cache : Cache) (q : List Char)
    (h : cache.data = []) :
    answer_question cache q = some (AnswerResponse.error emptyDbMsg) ∧
      AnswerResponse.error emptyDbMsg ≠ AnswerResponse.error unknownMsg := by
  constructor
  · unfold answer_question
    rw [if_pos h]
  · decide

/-- Witness for C2 on a concrete empty cache. -/
theorem answer_empty_database_witness :
    answer_question emptyCache "anything".toList = some (AnswerResponse.error emptyDbMsg) ∧
      AnswerResponse.error emptyDbMsg ≠ AnswerResponse.error unknownMsg :=
  answer_empty_database emptyCache "anything".toList rfl

/-- Claim C6: on a non-empty candidate list `extractOne` returns an
index within bounds and a score in `[0, 100]`, so the answer lookup at
that index in any equally long answer list succeeds. -/
theorem bestMatch_in_bounds (q : List Char) (cands : List (List Char)) (h : cands ≠ []) :
    ∃ m s i, extractOne q cands = some (m, s, i) ∧ i < cands.length ∧
      0 ≤ s ∧ s ≤ 100 ∧
      ∀ answers : List (List Char × List Char), answers.length = cands.length →
        ∃ pr, answers[i]? = some pr := by
  obtain ⟨m, s, i, hext, hi, hloc, hs, hmax, hstrict⟩ := extractOne_spec q cands h
  refine ⟨m, s, i, hext, hi, ?_, ?_, ?_⟩
  · rw [hs]; exact ratioScore_nonneg q m
  · rw [hs]; exact ratioScore_le_100 q m
  · intro answers hlen
    have hi' : i < answers.length := hlen ▸ hi
    exact ⟨answers[i], List.getElem?_eq_getElem hi'⟩

/-- Witness for C6 on a concrete candidate list. -/
theorem bestMatch_in_bounds_witness :
    ∃ m s i, extractOne "oi".toList ["ola".toList] = some (m, s, i) ∧
      i < (["ola".toList] : List (List Char)).length ∧ 0 ≤ s ∧ s ≤ 100 ∧
      ∀ answers : List (List Char × List Char),
        answers.length = (["ola".toList] : List (List Char)).length →
        ∃ pr, answers[i]? = some pr :=
  bestMatch_in_bounds "oi".toList ["ola".toList] (by decide)

/-- Claim C7: the returned entry is the candidate stored at the returned
index, scored by the scorer itself; that score is the maximum over all
candidates, and any candidate attaining it has an index at least the
returned one — the matcher breaks ties by first occurrence. -/
theorem bestMatch_first_on_ties (q : List Char) (cands : List (List Char)) (h : cands ≠ []) :
    ∃ m s i, extractOne q cands = some (m, s, i) ∧
      cands[i]? = some m ∧ s = ratioScore q m ∧
      (∀ j (hj : j < cands.length), ratioScore q cands[j] ≤ s) ∧
      (∀ j (hj : j < cands.length), ratioScore q cands[j] = s → i ≤ j) := by
  obtain ⟨m, s, i, hext, hi, hloc, hs, hmax, hstrict⟩ := extractOne_spec q cands h
  refine ⟨m, s, i, hext, hloc, hs, hmax, ?_⟩
  intro j hj heq
  by_contra hcon
  push_neg at hcon
  exact absurd heq (ne_of_lt (hstrict j hj hcon))

/-- Witness for C7 on a candidate list with an exact tie. -/
theorem bestMatch_first_on_ties_witness :
    ∃ m s i, extractOne "oi".toList ["oi".toList, "oi".toList] = some (m, s, i) ∧
      (["oi".toList, "oi".toList] : List (List Char))[i]? = some m ∧
      s = ratioScore "oi".toList m ∧
      (∀ j (hj : j < (["oi".toList, "oi".toList] : List (List Char)).length),
        ratioScore "oi".toList (["oi".toList, "oi".toList] : List (List Char))[j] ≤ s) ∧
      (∀ j (hj : j < (["oi".toList, "oi".toList] : List (List Char)).length),
        ratioScore "oi".toList (["oi".toList, "oi".toList] : List (List Char))[j] = s →
          i ≤ j) :=
  bestMatch_first_on_ties "oi".toList ["oi".toList, "oi".toList] (by decide)

/-- Claim C1: with a non-empty cache, if the best score reaches the
fixed threshold 70 the response is the answer stored at the matched
index with the score formatted to one decimal place as a percentage;
below 70 it is the unknown outcome. -/
theorem answer_threshold_behavior (cache : Cache) (q : List Char)
    (hne : cache.data ≠ [])
    (hlen : cache.norm_questions.length = cache.data.length) :
    ∃ m s i, extractOne (normalize q) cache.norm_questions = some (m, s, i) ∧
      (70 ≤ s → ∃ pr, cache.data[i]? = some pr ∧
        answer_question cache q = some (AnswerResponse.ok pr.2 (formatConfidence s))) ∧
      (s < 70 → answer_question cache q = some (AnswerResponse.error unknownMsg)) := by
  have hcne : cache.norm_questions ≠ [] := by
    intro h0
    apply hne
    have hlen0 : cache.data.length = 0 := by rw [← hlen, h0]; rfl
    exact List.eq_nil_of_length_eq_zero hlen0
  obtain ⟨m, s, i, hext, hi, hloc, hs, hmax, hstrict⟩ :=
    extractOne_spec (normalize q) cache.norm_questions hcne
  have hidata : i < cache.data.length := hlen ▸ hi
  refine ⟨m, s, i, hext, ?_, ?_⟩
  · intro h70
    refine ⟨cache.data[i], List.getElem?_eq_getElem hidata, ?_⟩
    unfold answer_question answerCore
    rw [if_neg hne, hext]
    dsimp only
    rw [if_pos h70, List.getElem?_eq_getElem hidata]
  · intro hlt
    unfold answer_question answerCore
    rw [if_neg hne, hext]
    dsimp only
    rw [if_neg (not_le.mpr hlt)]

/-- Witness for C1 on a concrete one-record cache. -/
theorem answer_threshold_behavior_witness :
    ∃ m s i,
      extractOne (normalize "oi".toList) witnessCache.norm_questions = some (m, s, i) ∧
      (70 ≤ s → ∃ pr, witnessCache.data[i]? = some pr ∧
        answer_question witnessCache "oi".toList =
          some (AnswerResponse.ok pr.2 (formatConfidence s))) ∧
      (s < 70 → answer_question witnessCache "oi".toList =
        some (AnswerResponse.error unknownMsg)) :=
  answer_threshold_behavior witnessCache "oi".toList (by decide) rfl

/-- Claim C4: records created by `/add` and by CSV import carry
`question_norm` equal to the normalizer applied to their `question`
field, and the answering path feeds the very same normalizer's output of
the query to the matcher. -/
theorem normalization_write_query_symmetry :
    (∀ item : NewAnswer,
      (mkRecord item).question_norm = normalize (mkRecord item).question) ∧
    (∀ row : List (List Char),
      (csvRecord row).question_norm = normalize (csvRecord row).question) ∧
    (∀ (st : ServerState) (item : NewAnswer),
      (add_answer st item).store = st.store ++ [mkRecord item]) ∧
    (∀ (st : ServerState) (rows : List (List (List Char))),
      rows.length ≤ 500 → rows.findSome? rowError = none →
      (import_csv st rows).1.store = st.store ++ rows.map csvRecord) ∧
    (∀ (cache : Cache) (q : List Char),
      answer_question cache q =
        if cache.data = [] then some (AnswerResponse.error emptyDbMsg)
        else answerCore cache (normalize q)) := by
  refine ⟨fun item => rfl, fun row => rfl, fun st item => rfl, ?_, fun cache q => rfl⟩
  intro st rows h500 hval
  unfold import_csv
  rw [if_neg (by omega), hval]

/-- Witness for C4's import clause on a concrete valid upload. -/
theorem normalization_write_query_symmetry_witness :
    (import_csv (initState []) witnessRows).1.store =
      (initState []).store ++ witnessRows.map csvRecord :=
  normalization_write_query_symmetry.2.2.2.1 (initState []) witnessRows
    (by decide) (by decide)

lemma reachable_cache_eq (st : ServerState) (h : Reachable st) :
    st.cache = load_cache st.store := by
  induction h with
  | init store => rfl
  | add st item hst ih => rfl
  | csv st rows hst ih =>
    unfold import_csv
    split
    · exact ih
    · split
      · exact ih
      · rfl

/-- Claim C5: in every reachable server state the two cache sequences
have equal length, and the entries at each index are the projections of
the same store record; the answering path reads only these aligned
sequences. -/
theorem cache_sequences_aligned (st : ServerState) (h : Reachable st) :
    st.cache.norm_questions.length = st.cache.data.length ∧
    (∀ i : Nat, st.cache.data[i]? =
      (st.store[i]?).map (fun r => (r.question, r.answer))) ∧
    (∀ i : Nat, st.cache.norm_questions[i]? =
      (st.store[i]?).map (fun r => r.question_norm)) := by
  rw [reachable_cache_eq st h]
  refine ⟨by simp [load_cache], ?_, ?_⟩
  · intro i
    simp [load_cache]
  · intro i
    simp [load_cache]

/-- Witness for C5 at a state reached by one `/add` after startup. -/
theorem cache_sequences_aligned_witness :
    (add_answer (initState []) witnessItem).cache.norm_questions.length =
      (add_answer (initState []) witnessItem).cache.data.length ∧
    (∀ i : Nat, (add_answer (initState []) witnessItem).cache.data[i]? =
      ((add_answer (initState []) witnessItem).store[i]?).map
        (fun r => (r.question, r.answer))) ∧
    (∀ i : Nat, (add_answer (initState []) witnessItem).cache.norm_questions[i]? =
      ((add_answer (initState []) witnessItem).store[i]?).map
        (fun r => r.question_norm)) :=
  cache_sequences_aligned (add_answer (initState []) witnessItem)
    (Reachable.add (initState []) witnessItem (Reachable.init []))

lemma findSome?_isSome_of_mem {α β : Type} (l : List α) (f : α → Option β)
    (a : α) (ha : a ∈ l) (hfa : f a ≠ none) : ∃ v, l.findSome? f = some v := by
  induction l with
  | nil => cases ha
  | cons x xs ih =>
    rw [List.findSome?_cons]
    cases hfx : f x with
    | some v => exact ⟨v, rfl⟩
    | none =>
      rcases List.mem_cons.mp ha with heq | hmem
      · subst heq; exact absurd hfx hfa
      · exact ih hmem

/-- Claim C10: if any row of the parsed CSV fails field validation, the
request is rejected with HTTP 400 and the server state — store and cache
alike — is left exactly as it was; no insert happens. -/
theorem csv_import_rejects_before_insert (st : ServerState)
    (rows : List (List (List Char)))
    (h : ∃ r ∈ rows, rowError r ≠ none) :
    (import_csv st rows).1 = st ∧
      ∃ d, (import_csv st rows).2 = ImportResult.httpError 400 d := by
  unfold import_csv
  by_cases h500 : 500 < rows.length
  · rw [if_pos h500]
    exact ⟨rfl, _, rfl⟩
  · rw [if_neg h500]
    obtain ⟨r, hr, hne⟩ := h
    obtain ⟨v, hv⟩ := findSome?_isSome_of_mem rows rowError r hr hne
    rw [hv]
    exact ⟨rfl, v, rfl⟩

/-- Witness for C10 on an upload whose only row lacks the answer field. -/
theorem csv_import_rejects_before_insert_witness :
    (import_csv (initState []) badRows).1 = initState [] ∧
      ∃ d, (import_csv (initState []) badRows).2 = ImportResult.httpError 400 d :=
  csv_import_rejects_before_insert (initState []) badRows (by decide)

/-- Claim C3: `/add` rebuilds the cache from the mutated store before
success is reported (the resulting cache is exactly the projection of
the resulting store), after which answering with the newly added
question yields an answer; the successful CSV import path re-establishes
the same cache/store equality. -/
theorem mutation_rebuilds_cache :
    (∀ (st : ServerState) (item : NewAnswer),
      (add_answer st item).cache = load_cache (add_answer st item).store ∧
      ∃ a conf, answer_question (add_answer st item).cache item.question =
        some (AnswerResponse.ok a conf)) ∧
    (∀ (st : ServerState) (rows : List (List (List Char))) (n : Nat),
      (import_csv st rows).2 = ImportResult.ok n →
      (import_csv st rows).1.cache = load_cache (import_csv st rows).1.store) := by
  constructor
  · intro st item
    refine ⟨rfl, ?_⟩
    have hcands : (add_answer st item).cache.norm_questions =
        st.store.map (fun r => r.question_norm) ++ [normalize item.question] := by
      simp [add_answer, load_cache, mkRecord]
    have hcne : (add_answer st item).cache.norm_questions ≠ [] := by
      rw [hcands]; simp
    obtain ⟨m, s, i, hext, hi, hloc, hs, hmax, hstrict⟩ :=
      extractOne_spec (normalize item.question) _ hcne
    have hklt : st.store.length < (add_answer st item).cache.norm_questions.length := by
      rw [hcands]; simp
    have hkval : (add_answer st item).cache.norm_questions[st.store.length]? =
        some (normalize item.question) := by
      rw [hcands, List.getElem?_append_right (by simp)]
      simp
    have h70 : 70 ≤ s := by
      have hj := hmax st.store.length hklt
      have h1 := List.getElem?_eq_getElem hklt
      rw [hkval] at h1
      rw [← Option.some.inj h1, ratioScore_self] at hj
      linarith
    have hlen : (add_answer st item).cache.norm_questions.length =
        (add_answer st item).cache.data.length := by
      simp [add_answer, load_cache]
    have hidata : i < (add_answer st item).cache.data.length := hlen ▸ hi
    have hdne : (add_answer st item).cache.data ≠ [] := by
      intro h0
      rw [h0] at hidata
      simp at hidata
    refine ⟨((add_answer st item).cache.data[i]).2, formatConfidence s, ?_⟩
    unfold answer_question answerCore
    rw [if_neg hdne, hext]
    dsimp only
    rw [if_pos h70, List.getElem?_eq_getElem hidata]
  · intro st rows n h
    unfold import_csv at h ⊢
    by_cases h500 : 500 < rows.length
    · rw [if_pos h500] at h
      simp at h
    · rw [if_neg h500] at h ⊢
      cases hfs : rows.findSome? rowError with
      | some msg =>
        rw [hfs] at h
        simp at h
      | none => rfl

/-- Witness for C3's import clause on a concrete valid upload. -/
theorem mutation_rebuilds_cache_witness :
    (import_csv (initState []) witnessRows).1.cache =
      load_cache (import_csv (initState []) witnessRows).1.store :=
  mutation_rebuilds_cache.2 (initState []) witnessRows 1 (by decide)

/-- Claim C9: the spec's worked example, end to end: the raw query
normalizes to `"ola, tudo bem?"`, the matcher picks index 0 with a score
of at least 70, and the service returns the answer stored at index 0
(with the score `1200/13 ≈ 92.3` formatted as `"92.3%"`). -/
theorem demo_example_answer :
    normalize "Olá, tudo bem?".toList = "ola, tudo bem?".toList ∧
    (∃ m s, extractOne "ola, tudo bem?".toList demoCache.norm_questions =
        some (m, s, 0) ∧ 70 ≤ s) ∧
    answer_question demoCache "Olá, tudo bem?".toList =
      some (AnswerResponse.ok "Oi! Tudo otimo.".toList "92.3%".toList) := by
  have hnorm : normalize "Olá, tudo bem?".toList = "ola, tudo bem?".toList := by decide
  have h0 : indelFast "ola, tudo bem?".toList "ola tudo bem".toList = 2 := by decide
  have h1 : indelFast "ola, tudo bem?".toList "qual o horario".toList = 20 := by decide
  have l0 : "ola, tudo bem?".toList.length = 14 := by decide
  have l1 : "ola tudo bem".toList.length = 12 := by decide
  have l2 : "qual o horario".toList.length = 14 := by decide
  have hcands : demoCache.norm_questions =
      ["ola tudo bem".toList, "qual o horario".toList] := rfl
  have hr0 : ratioScore "ola, tudo bem?".toList "ola tudo bem".toList = 1200 / 13 := by
    unfold ratioScore
    rw [if_neg (by decide :
      ¬("ola, tudo bem?".toList.length + "ola tudo bem".toList.length = 0)), h0, l0, l1]
    norm_num
  have hr1 : ratioScore "ola, tudo bem?".toList "qual o horario".toList = 200 / 7 := by
    unfold ratioScore
    rw [if_neg (by decide :
      ¬("ola, tudo bem?".toList.length + "qual o horario".toList.length = 0)), h1, l0, l2]
    norm_num
  have hext : extractOne "ola, tudo bem?".toList
      ["ola tudo bem".toList, "qual o horario".toList] =
      some ("ola tudo bem".toList, 1200 / 13, 0) := by
    simp only [extractOne, extractOneAux]
    rw [hr0, hr1]
    norm_num
  have hfloor : ⌊(10 : ℚ) * (1200 / 13)⌋ = 923 := by
    rw [Int.floor_eq_iff]
    constructor <;> norm_num
  have hfmt : formatConfidence (1200 / 13 : ℚ) = "92.3%".toList := by
    simp only [formatConfidence, roundHalfEven]
    rw [hfloor]
    rw [if_pos (by norm_num : (10 : ℚ) * (1200 / 13) - ((923 : ℤ) : ℚ) < 1 / 2)]
    decide
  refine ⟨hnorm, ⟨"ola tudo bem".toList, 1200 / 13, ?_, by norm_num⟩, ?_⟩
  · rw [hcands, hext]
  · unfold answer_question answerCore
    rw [if_neg (by decide), hnorm, hcands, hext]
    dsimp only
    rw [if_pos (by norm_num : (70 : ℚ) ≤ 1200 / 13)]
    have hdata : demoCache.data[0]? =
        some ("ola tudo bem".toList, "Oi! Tudo otimo.".toList) := rfl
    rw [hdata]
    dsimp only
    rw [hfmt]

end AutoFAQ
